import Mathlib

/-!
Shallow embedding of the ffmpreg media toolkit (Rust) in Lean 4, together
with theorems settling the frozen claims about its specification.

Bytes are modelled as Nat (values < 256 in well-formed data), machine
integers as Nat / Int with explicit wrap-around where the source relies on
it, and f32 / f64 arithmetic as exact rational arithmetic; every place a
definition relies on the rational model of a float is marked in its doc
comment, and every claim that depends on it is settled at inputs where the
float computation is exact (integers below 2 ^ 24 for f32, and quotients
far from the rounding boundary for f64).
-/

/-- Decode two little-endian bytes as an i16 (i16::from_le_bytes). -/
def i16FromLe (b0 b1 : Nat) : Int :=
  let v : Nat := (b0 % 256) + 256 * (b1 % 256)
  if v < 32768 then (v : Int) else (v : Int) - 65536

/-- Encode an i16 as two little-endian bytes (i16::to_le_bytes); the value
is first reduced to its 16-bit twos-complement representative. -/
def i16ToLe (s : Int) : List Nat :=
  let u : Nat := (s % 65536).toNat
  [u % 256, u / 256]

/-- Decode four little-endian bytes as a u32 (u32::from_le_bytes). -/
def fromLe32 (b0 b1 b2 b3 : Nat) : Nat :=
  (b0 % 256) + 256 * (b1 % 256) + 65536 * (b2 % 256) + 16777216 * (b3 % 256)

/-- Decode two little-endian bytes as a u16 (u16::from_le_bytes). -/
def fromLe16 (b0 b1 : Nat) : Nat :=
  (b0 % 256) + 256 * (b1 % 256)

/-- Encode a u32 as four little-endian bytes (u32::to_le_bytes). -/
def toLe32 (n : Nat) : List Nat :=
  [n % 256, n / 256 % 256, n / 65536 % 256, n / 16777216 % 256]

/-- Truncation of a rational toward zero: the rounding performed by the
Rust casts (f as i16), (f as i64) and (f as usize) on in-range values. -/
def ratTrunc (q : ℚ) : Int :=
  Int.tdiv q.num (q.den : Int)

/-- Clamp with the argument order of Rust f32::clamp(lo, hi). -/
def rustClamp (q lo hi : ℚ) : ℚ :=
  if q < lo then lo else if hi < q then hi else q

/-- Decode a byte buffer into i16 samples two bytes at a time, as the Rust
idiom data.chunks(2).map(i16::from_le_bytes) does.  A trailing odd byte
would make the Rust expression panic on c[1]; it cannot arise from an
audio frame (whose data length is a multiple of channels * 2) and is
mapped to the empty tail here. -/
def decodeSamplesLe : List Nat → List Int
  | b0 :: b1 :: rest => i16FromLe b0 b1 :: decodeSamplesLe rest
  | _ => []

/-- Encode i16 samples back into little-endian bytes
(flat_map(to_le_bytes)). -/
def encodeSamplesLe (samples : List Int) : List Nat :=
  samples.flatMap i16ToLe

/-- Error kinds of the IoError taxonomy (io module); the attached message
strings are elided, the kind alone identifies the error in every claim. -/
inductive IoErrorKind where
  | unexpectedEof
  | invalidData
  | interrupted
  | permissionDenied
  | notFound
  | other
deriving DecidableEq

/-- Modelled from the spec: Timebase (core/time.rs is not among the
sources); a rational num/den expressing seconds per tick, built by
Timebase::new(num, den). -/
structure Timebase where
  num : Nat
  den : Nat
deriving DecidableEq

/-- Constructor Timebase::new. -/
def Timebase.new (num den : Nat) : Timebase :=
  ⟨num, den⟩

/-- Packet (core/packet.rs): a compressed or container-level unit. -/
structure Packet where
  data : List Nat
  pts : Int
  dts : Int
  timebase : Timebase
  stream_index : Nat
  keyframe : Bool
  discard : Bool
deriving DecidableEq

/-- Constructor Packet::new. -/
def Packet.new (data : List Nat) (stream_index : Nat) (timebase : Timebase) : Packet :=
  ⟨data, 0, 0, timebase, stream_index, false, false⟩

/-- Builder Packet::with_pts. -/
def Packet.with_pts (p : Packet) (pts : Int) : Packet :=
  { p with pts := pts }

/-- Accessor Packet::size. -/
def Packet.size (p : Packet) : Nat :=
  p.data.length

/-- Modelled from the spec: the audio variant of Frame (core/frame.rs is
not among the sources); interleaved signed 16-bit little-endian samples. -/
structure FrameAudio where
  data : List Nat
  sample_rate : Nat
  channels : Nat
  nb_samples : Nat
deriving DecidableEq

/-- Constructor FrameAudio::new, nb_samples defaulting to zero until
with_nb_samples is applied. -/
def FrameAudio.new (data : List Nat) (sample_rate : Nat) (channels : Nat) : FrameAudio :=
  ⟨data, sample_rate, channels, 0⟩

/-- Builder FrameAudio::with_nb_samples. -/
def FrameAudio.with_nb_samples (a : FrameAudio) (nb_samples : Nat) : FrameAudio :=
  { a with nb_samples := nb_samples }

/-- Modelled from the spec: the video variant of Frame; planar YUV 4:2:0
bytes with dimensions. -/
structure FrameVideo where
  data : List Nat
  width : Nat
  height : Nat
deriving DecidableEq

/-- Constructor FrameVideo::new (the VideoFormat field is the constant
YUV420 and is elided). -/
def FrameVideo.new (data : List Nat) (width height : Nat) : FrameVideo :=
  ⟨data, width, height⟩

/-- Modelled from the spec: the tagged payload of a Frame. -/
inductive FrameData where
  | audio (a : FrameAudio)
  | video (v : FrameVideo)
deriving DecidableEq

/-- Modelled from the spec: Frame, carrying pts, timebase and
stream_index alongside its tagged payload. -/
structure Frame where
  data : FrameData
  pts : Int
  timebase : Timebase
  stream_index : Nat
deriving DecidableEq

/-- Constructor Frame::new_audio. -/
def Frame.new_audio (a : FrameAudio) (timebase : Timebase) (stream_index : Nat) : Frame :=
  ⟨FrameData.audio a, 0, timebase, stream_index⟩

/-- Constructor Frame::new_video. -/
def Frame.new_video (v : FrameVideo) (timebase : Timebase) (stream_index : Nat) : Frame :=
  ⟨FrameData.video v, 0, timebase, stream_index⟩

/-- Builder Frame::with_pts. -/
def Frame.with_pts (f : Frame) (pts : Int) : Frame :=
  { f with pts := pts }

/-- WavFormat (container/wav/mod.rs). -/
structure WavFormat where
  channels : Nat
  sample_rate : Nat
  bit_depth : Nat
deriving DecidableEq

/-- WavFormat::bytes_per_sample. -/
def WavFormat.bytes_per_sample (f : WavFormat) : Nat :=
  f.bit_depth / 8

/-- WavFormat::bytes_per_frame. -/
def WavFormat.bytes_per_frame (f : WavFormat) : Nat :=
  f.bytes_per_sample * f.channels

/-- Chunk id bytes of the fmt chunk. -/
def fmtChunkId : List Nat :=
  [102, 109, 116, 32]

/-- Chunk id bytes of the data chunk. -/
def dataChunkId : List Nat :=
  [100, 97, 116, 97]

/-- WavReader state (container/wav/read.rs); the generic MediaRead source
is instantiated at the byte-slice reader of io/reader.rs, whose read fills
min(requested, remaining) bytes, so the unread suffix of the stream is the
whole reader state. -/
structure WavReader where
  reader : List Nat
  format : WavFormat
  timebase : Timebase
  data_remaining : Nat
  packet_count : Nat
deriving DecidableEq

/-- WavReader::read_header chunk walk: read an 8-byte chunk header, parse
and validate the fmt chunk when found (rejecting non-16-bit depths), skip
any other chunk by its declared size.  read_exact semantics over the
byte-slice reader: it succeeds exactly when enough bytes remain.  The u16
to u8 cast on the channel count is the explicit % 256. -/
def WavReader.read_header_loop (s : List Nat) : Except IoErrorKind (WavFormat × List Nat) :=
  if h8 : 8 ≤ s.length then
    let chunk_header := s.take 8
    let rest := s.drop 8
    let chunk_size := fromLe32 (chunk_header.getD 4 0) (chunk_header.getD 5 0)
      (chunk_header.getD 6 0) (chunk_header.getD 7 0)
    if chunk_header.take 4 = fmtChunkId then
      if chunk_size ≤ rest.length then
        let fmt_buf := rest.take chunk_size
        if chunk_size < 16 then Except.error IoErrorKind.invalidData
        else
          let channels := fromLe16 (fmt_buf.getD 2 0) (fmt_buf.getD 3 0) % 256
          let sample_rate := fromLe32 (fmt_buf.getD 4 0) (fmt_buf.getD 5 0)
            (fmt_buf.getD 6 0) (fmt_buf.getD 7 0)
          let bit_depth := fromLe16 (fmt_buf.getD 14 0) (fmt_buf.getD 15 0)
          if bit_depth ≠ 16 then Except.error IoErrorKind.invalidData
          else Except.ok (⟨channels, sample_rate, bit_depth⟩, rest.drop chunk_size)
      else Except.error IoErrorKind.unexpectedEof
    else
      if chunk_size ≤ rest.length then WavReader.read_header_loop (rest.drop chunk_size)
      else Except.error IoErrorKind.unexpectedEof
  else Except.error IoErrorKind.unexpectedEof
termination_by s.length
decreasing_by
  simp only [List.length_drop]
  omega

/-- WavReader::read_header: validate RIFF....WAVE, then walk chunks until
the fmt chunk. -/
def WavReader.read_header (s : List Nat) : Except IoErrorKind (WavFormat × List Nat) :=
  if 12 ≤ s.length then
    let buf := s.take 12
    if buf.take 4 ≠ [82, 73, 70, 70] then Except.error IoErrorKind.invalidData
    else if (buf.drop 8).take 4 ≠ [87, 65, 86, 69] then Except.error IoErrorKind.invalidData
    else WavReader.read_header_loop (s.drop 12)
  else Except.error IoErrorKind.unexpectedEof

/-- WavReader::find_data_chunk: scan 8-byte chunk headers until the data
chunk id, returning its declared size and the remaining stream. -/
def WavReader.find_data_chunk (s : List Nat) : Except IoErrorKind (Nat × List Nat) :=
  if h8 : 8 ≤ s.length then
    let buf := s.take 8
    if buf.take 4 = dataChunkId then
      Except.ok (fromLe32 (buf.getD 4 0) (buf.getD 5 0) (buf.getD 6 0) (buf.getD 7 0), s.drop 8)
    else WavReader.find_data_chunk (s.drop 8)
  else Except.error IoErrorKind.unexpectedEof
termination_by s.length
decreasing_by
  simp only [List.length_drop]
  omega

/-- WavReader::new: parse the header, locate the data chunk, initialise
the timebase to 1/sample_rate. -/
def WavReader.new (s : List Nat) : Except IoErrorKind WavReader :=
  match WavReader.read_header s with
  | Except.error e => Except.error e
  | Except.ok (format, s1) =>
    match WavReader.find_data_chunk s1 with
    | Except.error e => Except.error e
    | Except.ok (data_size, s2) =>
      Except.ok ⟨s2, format, Timebase.new 1 format.sample_rate, data_size, 0⟩

/-- WavReader::read_packet (Demuxer impl): at most 4096 bytes, never past
the declared data chunk; the underlying byte-slice read returns
min(requested, remaining) bytes; pts is packet_count * read /
bytes_per_frame as in the source.  The Ok(None) outcomes are the none
results. -/
def WavReader.read_packet (r : WavReader) : Option (Packet × WavReader) :=
  if r.data_remaining = 0 then none
  else
    let frame_size := min 4096 r.data_remaining
    let read := min frame_size r.reader.length
    if read = 0 then none
    else
      let buf := r.reader.take read
      let pts := r.packet_count * read / r.format.bytes_per_frame
      some (Packet.new buf 0 r.timebase |>.with_pts (pts : Int),
        { r with
          reader := r.reader.drop read
          data_remaining := r.data_remaining - read
          packet_count := r.packet_count + 1 })

/-- Repeated read_packet collecting the pts of up to n packets. -/
def WavReader.read_pts : WavReader → Nat → List Int
  | _, 0 => []
  | r, n + 1 =>
    match r.read_packet with
    | none => []
    | some (p, r2) => p.pts :: r2.read_pts n

/-- Modelled from the spec: the pts formula the specification states for
the WAV demuxer, cumulative payload bytes read before the packet divided
by bytes_per_frame, for a given sequence of per-packet read sizes. -/
def specWavPts (bytes_per_frame : Nat) (reads : List Nat) : List Int :=
  (List.range reads.length).map
    (fun i => (((reads.take i).sum / bytes_per_frame : Nat) : Int))

/-- PcmDecoder::decode (codecs/pcm/decode.rs): reinterpret the packet
bytes as interleaved 16-bit samples; always Ok(Some(frame)). -/
def PcmDecoder.decode (format : WavFormat) (packet : Packet) : Option Frame :=
  let nb_samples := packet.size / format.bytes_per_frame
  let audio := (FrameAudio.new packet.data format.sample_rate format.channels).with_nb_samples
    nb_samples
  some ((Frame.new_audio audio packet.timebase packet.stream_index).with_pts packet.pts)

/-- PcmEncoder::encode (codecs/pcm/encode.rs): emit the frame bytes
verbatim as a packet stamped with the encoder's own configured timebase
and the frame's pts; always Ok(Some(packet)). -/
def PcmEncoder.encode (encoder_timebase : Timebase) (frame : Frame) : Option Packet :=
  match frame.data with
  | FrameData.audio audio =>
    some ((Packet.new audio.data frame.stream_index encoder_timebase).with_pts frame.pts)
  | FrameData.video video =>
    some ((Packet.new video.data frame.stream_index encoder_timebase).with_pts frame.pts)

/-- Per-sample arithmetic of Gain::apply (transform/gain.rs):
(sample as f32 * factor).clamp(-32768.0, 32767.0) as i16.  The f32
arithmetic is modelled as exact rational arithmetic; for an integral
factor such as 2.0 every intermediate is an integer of magnitude below
2 ^ 24 and the model is bit-exact. -/
def Gain.amplify (factor : ℚ) (sample : Int) : Int :=
  ratTrunc (rustClamp ((sample : ℚ) * factor) (-32768) 32767)

/-- Byte-rewriting loop of Gain::apply: every aligned pair of bytes is
decoded, amplified and re-encoded in place; a trailing odd byte is outside
the loop bound samples = len / 2 and stays untouched. -/
def Gain.rewrite (factor : ℚ) : List Nat → List Nat
  | b0 :: b1 :: rest => i16ToLe (Gain.amplify factor (i16FromLe b0 b1)) ++ Gain.rewrite factor rest
  | rest => rest

/-- Gain::apply (Transform impl): rewrite the samples of an audio frame,
pass any other frame through unchanged. -/
def Gain.apply (factor : ℚ) (frame : Frame) : Frame :=
  match frame.data with
  | FrameData.audio audio =>
    { frame with data := FrameData.audio { audio with data := Gain.rewrite factor audio.data } }
  | FrameData.video _ => frame

/-- ChannelMixer::convert_stereo_to_mono (transform/channel_mixer.rs):
each complete pair mixes to (L + R) / 2 in i32 arithmetic, whose division
truncates toward zero; a trailing unpaired sample is dropped by the
pair.len() == 2 check. -/
def ChannelMixer.convert_stereo_to_mono : List Int → List Int
  | a :: b :: rest => Int.tdiv (a + b) 2 :: ChannelMixer.convert_stereo_to_mono rest
  | _ => []

/-- ChannelMixer::convert_mono_to_stereo: duplicate every sample. -/
def ChannelMixer.convert_mono_to_stereo : List Int → List Int
  | [] => []
  | a :: rest => a :: a :: ChannelMixer.convert_mono_to_stereo rest

/-- Target channel counts of the ChannelLayout variants. -/
inductive ChannelLayout where
  | mono
  | stereo
deriving DecidableEq

/-- ChannelMixer::apply (Transform impl): remix an audio frame toward the
target layout, updating data, channels and nb_samples; identical source
and target channel counts and unsupported channel pairs pass the samples
through. -/
def ChannelMixer.apply (target_layout : ChannelLayout) (frame : Frame) : Frame :=
  match frame.data with
  | FrameData.audio audio =>
    let src_channels := audio.channels
    let target_channels := match target_layout with
      | ChannelLayout.mono => 1
      | ChannelLayout.stereo => 2
    if src_channels = target_channels then frame
    else
      let input_samples := decodeSamplesLe audio.data
      let output_samples :=
        if src_channels = 1 ∧ target_channels = 2 then
          ChannelMixer.convert_mono_to_stereo input_samples
        else if src_channels = 2 ∧ target_channels = 1 then
          ChannelMixer.convert_stereo_to_mono input_samples
        else input_samples
      let output_data := encodeSamplesLe output_samples
      let nb_samples := output_samples.length / target_channels
      let new_audio : FrameAudio :=
        { audio with data := output_data, channels := target_channels, nb_samples := nb_samples }
      { frame with data := FrameData.audio new_audio }
  | FrameData.video _ => frame

/-- Iterator step_by(step) for step ≥ 1: keep the head, then skip
step - 1 elements. -/
def stepBy (step : Nat) : List Int → List Int
  | [] => []
  | a :: rest => a :: stepBy step (rest.drop (step - 1))
termination_by l => l.length
decreasing_by
  simp only [List.length_drop, List.length_cons]
  omega

/-- Channel extraction of Resample::apply: iter().skip(ch).step_by(channels). -/
def extractChannel (ch channels : Nat) (samples : List Int) : List Int :=
  stepBy channels (samples.drop ch)

/-- Resample::linear_interpolate (transform/resample.rs).  The f64
arithmetic (ratio, src_pos, frac, the interpolation and the ceil of the
output length) is modelled as exact rational arithmetic; the casts to
usize and i16 truncate toward zero on the nonnegative in-range values that
arise. -/
def Resample.linear_interpolate (samples : List Int) (src_rate dst_rate : Nat) : List Int :=
  if src_rate = dst_rate then samples
  else
    let ratio : ℚ := (src_rate : ℚ) / (dst_rate : ℚ)
    let output_len := (Int.ceil ((samples.length : ℚ) / ratio)).toNat
    (List.range output_len).map (fun i =>
      let src_pos : ℚ := (i : ℚ) * ratio
      let src_idx := (ratTrunc src_pos).toNat
      let frac : ℚ := src_pos - (src_idx : ℚ)
      if src_idx + 1 < samples.length then
        ratTrunc (((samples.getD src_idx 0 : Int) : ℚ) * (1 - frac)
          + ((samples.getD (src_idx + 1) 0 : Int) : ℚ) * frac)
      else if src_idx < samples.length then samples.getD src_idx 0
      else 0)

/-- New pts computed by Resample::apply:
(frame_pts as f64 * target_rate as f64 / src_rate as f64) as i64, the cast
truncating toward zero; the f64 quotient is modelled as the exact rational
quotient. -/
def Resample.new_pts (frame_pts : Int) (target_rate src_rate : Nat) : Int :=
  ratTrunc ((frame_pts : ℚ) * (target_rate : ℚ) / (src_rate : ℚ))

/-- Resample::apply (Transform impl): deinterleave per channel, resample
each channel, reinterleave, rewrite sample_rate, nb_samples, timebase and
pts; a frame already at the target rate, or a video frame, passes through
unchanged. -/
def Resample.apply (target_rate : Nat) (frame : Frame) : Frame :=
  match frame.data with
  | FrameData.audio audio =>
    if audio.sample_rate = target_rate then frame
    else
      let src_rate := audio.sample_rate
      let channels := audio.channels
      let input_samples := decodeSamplesLe audio.data
      let channel_data := (List.range channels).map
        (fun ch => Resample.linear_interpolate (extractChannel ch channels input_samples)
          src_rate target_rate)
      let output_samples_per_channel := (channel_data.head?.map List.length).getD 0
      let output_samples := (List.range output_samples_per_channel).flatMap
        (fun i => (List.range channels).map (fun ch => (channel_data.getD ch []).getD i 0))
      let output_data := encodeSamplesLe output_samples
      { data := FrameData.audio
          { data := output_data, sample_rate := target_rate, channels := channels,
            nb_samples := output_samples_per_channel },
        pts := Resample.new_pts frame.pts target_rate src_rate,
        timebase := Timebase.new 1 target_rate,
        stream_index := frame.stream_index }
  | FrameData.video _ => frame

/-- Flip directions (transform/video/flip.rs). -/
inductive FlipDirection where
  | horizontal
  | vertical
deriving DecidableEq

/-- Destination coordinates of one source pixel in Flip::flip_plane. -/
def Flip.dst_coords (direction : FlipDirection) (width height y x : Nat) : Nat × Nat :=
  match direction with
  | FlipDirection.horizontal => (width - 1 - x, y)
  | FlipDirection.vertical => (x, height - 1 - y)

/-- Row-major enumeration of the nested for y, for x loop of
Flip::flip_plane. -/
def planeGrid (width height : Nat) : List (Nat × Nat) :=
  (List.range height).flatMap (fun y => (List.range width).map (fun x => (y, x)))

/-- Destination index written for the source pixel (y, x) by
Flip::flip_plane: dst_y * width + dst_x. -/
def Flip.dst_index (direction : FlipDirection) (width height : Nat) (p : Nat × Nat) : Nat :=
  let c := Flip.dst_coords direction width height p.1 p.2
  c.2 * width + c.1

/-- One iteration of the Flip::flip_plane loop body: write src[y*w+x]
into the flipped destination index, guarded by the bounds checks of the
source. -/
def Flip.plane_step (direction : FlipDirection) (src : List Nat) (width height : Nat)
    (d : List Nat) (p : Nat × Nat) : List Nat :=
  let src_idx := p.1 * width + p.2
  let dst_idx := Flip.dst_index direction width height p
  if src_idx < src.length ∧ dst_idx < d.length then d.set dst_idx (src.getD src_idx 0)
  else d

/-- Flip::flip_plane: the nested for y, for x loop folding the step over
the row-major grid. -/
def Flip.flip_plane (direction : FlipDirection) (src dst : List Nat) (width height : Nat) :
    List Nat :=
  (planeGrid width height).foldl (Flip.plane_step direction src width height) dst

/-- Horizontal-mirror index map on a row-major plane of the given width:
the row of j paired with the mirrored column. -/
def hMirrorIdx (width j : Nat) : Nat :=
  (j / width) * width + (width - 1 - j % width)

/-- Flip::apply_yuv420: slice the Y, U, V planes by the configured
dimensions, flip each into zero-initialised destination planes, rebuild
the frame with the same metadata.  The Rust slicing panics when the frame
data is shorter than the planes; the claims only evaluate it on exactly
sized data, where take and drop agree with slicing. -/
def Flip.apply_yuv420 (direction : FlipDirection) (width height : Nat) (frame : Frame) : Frame :=
  match frame.data with
  | FrameData.video video =>
    let y_size := width * height
    let uv_size := y_size / 4
    let src_y := video.data.take y_size
    let src_u := (video.data.drop y_size).take uv_size
    let src_v := (video.data.drop (y_size + uv_size)).take uv_size
    let dst_y := Flip.flip_plane direction src_y (List.replicate y_size 0) width height
    let uv_w := width / 2
    let uv_h := height / 2
    let dst_u := Flip.flip_plane direction src_u (List.replicate uv_size 0) uv_w uv_h
    let dst_v := Flip.flip_plane direction src_v (List.replicate uv_size 0) uv_w uv_h
    let new_video := FrameVideo.new (dst_y ++ dst_u ++ dst_v) video.width video.height
    (Frame.new_video new_video frame.timebase frame.stream_index).with_pts frame.pts
  | FrameData.audio _ => frame

/-- Modelled from the spec: bit i of the byte stream, most significant
bit first (the BitReader of codecs/mp3/bits.rs is not among the sources;
the spec's 11-bit sync word 0x7FF at the start of the stream fixes the
MSB-first order). -/
def getBitMsb (data : List Nat) (i : Nat) : Nat :=
  data.getD (i / 8) 0 / 2 ^ (7 - i % 8) % 2

/-- Modelled from the spec: BitReader::read_bits, returning n bits MSB
first starting at bit position pos, or None past the end of the data. -/
def readBits (data : List Nat) (pos n : Nat) : Option Nat :=
  if pos + n ≤ 8 * data.length then
    some ((List.range n).foldl (fun acc k => acc * 2 + getBitMsb data (pos + k)) 0)
  else none

/-- MPEG versions (codecs/mp3/header.rs). -/
inductive MpegVersion where
  | mpeg1
  | mpeg2
  | mpeg25
deriving DecidableEq

/-- MPEG layers. -/
inductive Layer where
  | layer1
  | layer2
  | layer3
deriving DecidableEq

/-- MPEG channel modes. -/
inductive ChannelMode where
  | stereo
  | jointStereo
  | dualChannel
  | mono
deriving DecidableEq

/-- FrameHeader (codecs/mp3/header.rs). -/
structure FrameHeader where
  version : MpegVersion
  layer : Layer
  crc_protection : Bool
  bitrate : Nat
  sample_rate : Nat
  padding : Bool
  private_bit : Bool
  channel_mode : ChannelMode
  mode_extension : Nat
  copyright : Bool
  original : Bool
  emphasis : Nat
  frame_size : Nat
  channels : Nat
deriving DecidableEq

/-- BITRATE_TABLE: kbit rates indexed by version group, layer, bitrate
index. -/
def bitrateTable : List (List (List Nat)) :=
  [[[0, 32, 64, 96, 128, 160, 192, 224, 256, 288, 320, 352, 384, 416, 448],
    [0, 32, 48, 56, 64, 80, 96, 112, 128, 160, 192, 224, 256, 320, 384],
    [0, 32, 40, 48, 56, 64, 80, 96, 112, 128, 160, 192, 224, 256, 320]],
   [[0, 32, 48, 56, 64, 80, 96, 112, 128, 144, 160, 176, 192, 224, 256],
    [0, 8, 16, 24, 32, 40, 48, 56, 64, 80, 96, 112, 128, 144, 160],
    [0, 8, 16, 24, 32, 40, 48, 56, 64, 80, 96, 112, 128, 144, 160]]]

/-- SAMPLE_RATE_TABLE indexed by version, sample-rate index. -/
def sampleRateTable : List (List Nat) :=
  [[44100, 48000, 32000], [22050, 24000, 16000], [11025, 12000, 8000]]

/-- Version decoding of FrameHeader::parse: reserved value 1 is
rejected. -/
def decodeVersion (version_bits : Nat) : Option MpegVersion :=
  match version_bits with
  | 0 => some MpegVersion.mpeg25
  | 2 => some MpegVersion.mpeg2
  | 3 => some MpegVersion.mpeg1
  | _ => none

/-- Layer decoding of FrameHeader::parse: reserved value 0 is
rejected. -/
def decodeLayer (layer_bits : Nat) : Option Layer :=
  match layer_bits with
  | 1 => some Layer.layer3
  | 2 => some Layer.layer2
  | 3 => some Layer.layer1
  | _ => none

/-- Channel-mode decoding of FrameHeader::parse. -/
def decodeChannelMode (channel_mode_bits : Nat) : Option ChannelMode :=
  match channel_mode_bits with
  | 0 => some ChannelMode.stereo
  | 1 => some ChannelMode.jointStereo
  | 2 => some ChannelMode.dualChannel
  | 3 => some ChannelMode.mono
  | _ => none

/-- Tail of FrameHeader::parse after all bit fields are read and the
version, layer and channel mode are decoded: the reserved-index checks,
the table lookups and the frame-size formula of the source. -/
def FrameHeader.assemble (version : MpegVersion) (layer : Layer) (channel_mode : ChannelMode)
    (crc_bit bitrate_index sample_rate_index padding_bit private_bit mode_extension
      copyright_bit original_bit emphasis : Nat) : Option FrameHeader :=
  if bitrate_index = 0 ∨ bitrate_index = 15 ∨ sample_rate_index = 3 then none
  else
    let version_idx := match version with
      | MpegVersion.mpeg1 => 0
      | _ => 1
    let layer_idx := match layer with
      | Layer.layer1 => 0
      | Layer.layer2 => 1
      | Layer.layer3 => 2
    let sr_version_idx := match version with
      | MpegVersion.mpeg1 => 0
      | MpegVersion.mpeg2 => 1
      | MpegVersion.mpeg25 => 2
    let bitrate := (((bitrateTable.getD version_idx []).getD layer_idx []).getD
      bitrate_index 0) * 1000
    let sample_rate := (sampleRateTable.getD sr_version_idx []).getD sample_rate_index 0
    let padding : Bool := padding_bit = 1
    let frame_size := match layer with
      | Layer.layer1 => (12 * bitrate / sample_rate + if padding then 1 else 0) * 4
      | _ =>
        let samples_per_frame := match version, layer with
          | MpegVersion.mpeg1, Layer.layer3 => 1152
          | _, Layer.layer3 => 576
          | _, _ => 1152
        samples_per_frame * bitrate / 8 / sample_rate + if padding then 1 else 0
    let channels := if channel_mode = ChannelMode.mono then 1 else 2
    some
      { version := version, layer := layer, crc_protection := crc_bit = 0,
        bitrate := bitrate, sample_rate := sample_rate, padding := padding,
        private_bit := private_bit = 1, channel_mode := channel_mode,
        mode_extension := mode_extension, copyright := copyright_bit = 1,
        original := original_bit = 1, emphasis := emphasis, frame_size := frame_size,
        channels := channels }

/-- FrameHeader::parse: MSB-first bit reads at the positions the
sequential BitReader would reach (all reads are pure, so reading them
before the sync check returns the same result as the source's sequential
early returns), then every validity check of the source. -/
def FrameHeader.parse (data : List Nat) : Option FrameHeader :=
  if data.length < 4 then none
  else
    match readBits data 0 11, readBits data 11 2, readBits data 13 2, readBits data 15 1,
      readBits data 16 4, readBits data 20 2, readBits data 22 1, readBits data 23 1,
      readBits data 24 2, readBits data 26 2, readBits data 28 1, readBits data 29 1,
      readBits data 30 2 with
    | some sync, some version_bits, some layer_bits, some crc_bit, some bitrate_index,
      some sample_rate_index, some padding_bit, some private_bit, some channel_mode_bits,
      some mode_extension, some copyright_bit, some original_bit, some emphasis =>
      if sync ≠ 2047 then none
      else
        match decodeVersion version_bits, decodeLayer layer_bits,
          decodeChannelMode channel_mode_bits with
        | some version, some layer, some channel_mode =>
          FrameHeader.assemble version layer channel_mode crc_bit bitrate_index
            sample_rate_index padding_bit private_bit mode_extension copyright_bit
            original_bit emphasis
        | _, _, _ => none
    | _, _, _, _, _, _, _, _, _, _, _, _, _ => none

/-- find_sync (codecs/mp3/header.rs): first index whose byte is 0xFF,
whose successor has its top three bits set, and at which parse
succeeds. -/
def find_sync (data : List Nat) : Option Nat :=
  (List.range (data.length - 1)).find?
    (fun i => (data.getD i 0 == 255) && ((data.getD (i + 1) 0 &&& 224) == 224)
      && (FrameHeader.parse (data.drop i)).isSome)

/-- Absolute value on i16 with the release-build wrapping of
i16::abs (-32768 wraps to -32768; a debug build would panic there). -/
def i16Abs (s : Int) : Int :=
  if s = -32768 then -32768 else if s < 0 then -s else s

/-- Saturating float-to-i16 cast (f as i16): truncate toward zero, then
saturate to the i16 range. -/
def f32AsI16 (q : ℚ) : Int :=
  max (-32768) (min 32767 (ratTrunc q))

/-- Sample decoded at index i by the loops of Normalize::apply. -/
def Normalize.sample_at (data : List Nat) (i : Nat) : Int :=
  i16FromLe (data.getD (2 * i) 0) (data.getD (2 * i + 1) 0)

/-- Peak scan of Normalize::apply (transform/normalize.rs): fold max over
the wrapping absolute values of the first len / 2 samples. -/
def Normalize.max_amplitude (data : List Nat) : Int :=
  (List.range (data.length / 2)).foldl
    (fun m i => max m (i16Abs (Normalize.sample_at data i))) 0

/-- Per-sample arithmetic of the normalisation loop:
(sample as f32 * scale).clamp(-32768.0, 32767.0) as i16, its f32
arithmetic modelled as exact rational arithmetic. -/
def Normalize.scale_sample (scale : ℚ) (sample : Int) : Int :=
  ratTrunc (rustClamp ((sample : ℚ) * scale) (-32768) 32767)

/-- Byte-rewriting loop of Normalize::apply, structured like the Gain
loop. -/
def Normalize.rewrite (scale : ℚ) : List Nat → List Nat
  | b0 :: b1 :: rest => i16ToLe (Normalize.scale_sample scale (i16FromLe b0 b1))
      ++ Normalize.rewrite scale rest
  | rest => rest

/-- Normalize::apply (Transform impl): empty sample windows and silent
frames return unchanged before the scale is ever computed; otherwise every
sample is scaled by target / max_amplitude with target =
(32767.0 * target_peak) as i16. -/
def Normalize.apply (target_peak : ℚ) (frame : Frame) : Frame :=
  match frame.data with
  | FrameData.audio audio =>
    let samples := audio.data.length / 2
    if samples = 0 then frame
    else
      let max_amplitude := Normalize.max_amplitude audio.data
      if max_amplitude = 0 then frame
      else
        let target := f32AsI16 (32767 * target_peak)
        let scale : ℚ := (target : ℚ) / (max_amplitude : ℚ)
        let new_audio : FrameAudio := { audio with data := Normalize.rewrite scale audio.data }
        { frame with data := FrameData.audio new_audio }
  | FrameData.video _ => frame

/-- Modelled from the spec: the IMA ADPCM step table (codecs/adpcm/mod.rs
with AdpcmState is not among the sources; the spec prescribes a step table
and an index-adjust table driving the per-nibble decode, for which the
standard IMA tables are used). -/
def imaStepTable : List Int :=
  [7, 8, 9, 10, 11, 12, 13, 14, 16, 17, 19, 21, 23, 25, 28, 31,
   34, 37, 41, 45, 50, 55, 60, 66, 73, 80, 88, 97, 107, 118, 130, 143,
   157, 173, 190, 209, 230, 253, 279, 307, 337, 371, 408, 449, 494, 544, 598, 658,
   724, 796, 876, 963, 1060, 1166, 1282, 1411, 1552, 1707, 1878, 2066, 2272, 2499, 2749, 3024,
   3327, 3660, 4026, 4428, 4871, 5358, 5894, 6484, 7132, 7845, 8630, 9493, 10442, 11487, 12635,
   13899, 15289, 16818, 18500, 20350, 22385, 24623, 27086, 29794, 32767]

/-- Modelled from the spec: the 16-entry IMA index-adjust table. -/
def imaIndexTable : List Int :=
  [-1, -1, -1, -1, 2, 4, 6, 8, -1, -1, -1, -1, 2, 4, 6, 8]

/-- Modelled from the spec: per-channel IMA ADPCM state
{predictor: i16, step_index: i8}. -/
structure AdpcmState where
  predictor : Int
  step_index : Int
deriving DecidableEq

/-- Modelled from the spec: AdpcmState::new, the all-zero initial
state. -/
def AdpcmState.new : AdpcmState :=
  ⟨0, 0⟩

/-- Modelled from the spec: AdpcmState::decode_sample, the standard IMA
per-nibble decode: accumulate step fractions selected by the magnitude
bits, apply the sign bit, clamp the predictor to i16 and adjust the step
index by the index table, clamped to the table range. -/
def AdpcmState.decode_sample (st : AdpcmState) (nibble : Nat) : Int × AdpcmState :=
  let step := imaStepTable.getD st.step_index.toNat 0
  let magnitude := nibble % 8
  let diff := step / 8 + (if magnitude / 4 % 2 = 1 then step else 0)
    + (if magnitude / 2 % 2 = 1 then step / 2 else 0)
    + (if magnitude % 2 = 1 then step / 4 else 0)
  let signed_diff := if nibble / 8 % 2 = 1 then -diff else diff
  let predictor := max (-32768) (min 32767 (st.predictor + signed_diff))
  let step_index := max 0 (min 88 (st.step_index + imaIndexTable.getD (nibble % 16) 0))
  (predictor, ⟨predictor, step_index⟩)

/-- One byte of the AdpcmDecoder::decode loop (codecs/adpcm/decode.rs):
decode the low nibble into the round-robin channel of the even sample
index, then the high nibble into the channel of the odd sample index,
appending both samples and updating both per-channel states. -/
def AdpcmDecoder.step (channels : Nat) (acc : List Nat × List AdpcmState) (p : Nat × Nat) :
    List Nat × List AdpcmState :=
  let channel := (p.1 * 2) % channels
  let r1 := (acc.2.getD channel AdpcmState.new).decode_sample (p.2 % 16)
  let states1 := acc.2.set channel r1.2
  let channel2 := (p.1 * 2 + 1) % channels
  let r2 := (states1.getD channel2 AdpcmState.new).decode_sample (p.2 / 16 % 16)
  (acc.1 ++ i16ToLe r1.1 ++ i16ToLe r2.1, states1.set channel2 r2.2)

/-- AdpcmDecoder::decode: an empty packet returns Ok(None) at once,
leaving the states untouched; otherwise every byte yields two samples and
the decoded frame inherits the packet's pts, timebase and stream
index. -/
def AdpcmDecoder.decode (format : WavFormat) (states : List AdpcmState) (packet : Packet) :
    Option Frame × List AdpcmState :=
  if packet.data.isEmpty then (none, states)
  else
    let channels := format.channels
    let r := packet.data.enum.foldl (AdpcmDecoder.step channels) ([], states)
    let nb_samples := r.1.length / 2 / channels
    let audio := (FrameAudio.new r.1 format.sample_rate format.channels).with_nb_samples
      nb_samples
    (some ((Frame.new_audio audio packet.timebase packet.stream_index).with_pts packet.pts),
      r.2)

/-- Interleaved stereo sample stream built from left-right pairs, the
layout of the data of a stereo audio frame. -/
def interleaveLR : List (Int × Int) → List Int
  | [] => []
  | p :: rest => p.1 :: p.2 :: interleaveLR rest

/-- Audio payload bytes of a frame (empty for video frames); projection
used to state claims about transformed audio data. -/
def frameAudioBytes (f : Frame) : List Nat :=
  match f.data with
  | FrameData.audio a => a.data
  | FrameData.video _ => []

/-- Twelve-byte RIFF/WAVE file prefix with the given size bytes. -/
def riffWaveBytes (s0 s1 s2 s3 : Nat) : List Nat :=
  [82, 73, 70, 70, s0, s1, s2, s3, 87, 65, 86, 69]

/-- Byte layout of one RIFF chunk: four id bytes, the little-endian
payload size, the payload. -/
def chunkBytes (id payload : List Nat) : List Nat :=
  id ++ toLe32 payload.length ++ payload

/-- Sixteen-byte PCM fmt chunk payload: mono, 44100 Hz, 16-bit. -/
def fmtPayload16 : List Nat :=
  [1, 0, 1, 0, 68, 172, 0, 0, 136, 88, 1, 0, 2, 0, 16, 0]

/-- Sixteen-byte fmt chunk payload declaring an 8-bit depth. -/
def fmtPayload8 : List Nat :=
  [1, 0, 1, 0, 68, 172, 0, 0, 68, 172, 0, 0, 1, 0, 8, 0]

/-- Well-formed 16-bit mono WAV byte stream whose data chunk holds 4098
zero bytes: one full 4096-byte packet followed by a short 2-byte final
packet. -/
def wavShortTailStream : List Nat :=
  riffWaveBytes 0 0 0 0 ++ (chunkBytes fmtChunkId fmtPayload16
    ++ chunkBytes dataChunkId (List.replicate 4098 0))

/-- Roundtrip: decoding the two little-endian bytes of an in-range i16
recovers the value. -/
theorem i16FromLe_i16ToLe (s : Int) (h1 : -32768 ≤ s) (h2 : s ≤ 32767) :
    i16FromLe ((s % 65536).toNat % 256) ((s % 65536).toNat / 256) = s := by
  simp only [i16FromLe]
  split_ifs with hv <;> omega

/-- Decoding after encoding one in-range sample peels it off the byte
stream. -/
theorem decodeSamplesLe_i16ToLe (s : Int) (rest : List Nat) (h1 : -32768 ≤ s)
    (h2 : s ≤ 32767) :
    decodeSamplesLe (i16ToLe s ++ rest) = s :: decodeSamplesLe rest := by
  simp only [i16ToLe, List.cons_append, List.nil_append, decodeSamplesLe]
  rw [i16FromLe_i16ToLe s h1 h2]
  rfl

/-- Decoding an encoded list of in-range samples recovers the list. -/
theorem decodeSamplesLe_encodeSamplesLe (samples : List Int)
    (h : ∀ s ∈ samples, -32768 ≤ s ∧ s ≤ 32767) :
    decodeSamplesLe (encodeSamplesLe samples) = samples := by
  induction samples with
  | nil => rfl
  | cons s rest ih =>
    have hs := h s (List.mem_cons_self s rest)
    simp only [encodeSamplesLe, List.flatMap_cons] at ih ⊢
    rw [decodeSamplesLe_i16ToLe s _ hs.1 hs.2, ih]
    intro t ht
    exact h t (List.mem_cons_of_mem s ht)

/-- C10: for every packet whose data buffer is empty, the IMA ADPCM
decoder returns Ok(None), producing no frame and no error, and the
per-channel decoder states are returned unchanged. -/
theorem adpcm_decode_empty_packet (format : WavFormat) (states : List AdpcmState)
    (packet : Packet) (h : packet.data = []) :
    AdpcmDecoder.decode format states packet = (none, states) := by
  simp [AdpcmDecoder.decode, h]

/-- Witness for C10 at a concrete empty packet. -/
theorem adpcm_decode_empty_packet_witness :
    AdpcmDecoder.decode ⟨2, 44100, 16⟩ [AdpcmState.new, ⟨5, 3⟩]
      (Packet.new [] 0 (Timebase.new 1 44100))
      = (none, [AdpcmState.new, ⟨5, 3⟩]) :=
  adpcm_decode_empty_packet ⟨2, 44100, 16⟩ [AdpcmState.new, ⟨5, 3⟩]
    (Packet.new [] 0 (Timebase.new 1 44100)) rfl

/-- Fold of max over values that are all zero stays at zero. -/
theorem foldl_max_all_zero (f : Nat → Int) (l : List Nat) (h : ∀ i ∈ l, f i = 0) :
    l.foldl (fun m i => max m (f i)) 0 = 0 := by
  induction l with
  | nil => rfl
  | cons a t ih =>
    rw [List.foldl_cons, h a (List.mem_cons_self a t)]
    simpa using ih (fun i hi => h i (List.mem_cons_of_mem a hi))

/-- Silent data has zero peak amplitude. -/
theorem max_amplitude_zero (data : List Nat)
    (h : ∀ i, i < data.length / 2 → Normalize.sample_at data i = 0) :
    Normalize.max_amplitude data = 0 := by
  unfold Normalize.max_amplitude
  apply foldl_max_all_zero
  intro i hi
  rw [h i (List.mem_range.mp hi)]
  rfl

/-- C9: a frame whose sample window is empty or whose samples are all
zero passes through Normalize::apply byte-for-byte unchanged; both early
returns fire before the scale (the division by the peak) is ever
computed, so the divisor max_amplitude is nonzero whenever the division
executes. -/
theorem normalize_silent_unchanged (target_peak : ℚ) (frame : Frame) (a : FrameAudio)
    (hdata : frame.data = FrameData.audio a)
    (hsilent : ∀ i, i < a.data.length / 2 → Normalize.sample_at a.data i = 0) :
    Normalize.apply target_peak frame = frame := by
  obtain ⟨d, pts, tb, si⟩ := frame
  simp only at hdata
  subst hdata
  have hmax := max_amplitude_zero a.data hsilent
  unfold Normalize.apply
  dsimp only
  split_ifs with h1
  · rfl
  · rfl

/-- Witness for C9: a silent two-sample mono frame is unchanged. -/
theorem normalize_silent_unchanged_witness :
    Normalize.apply (95 / 100)
      ⟨FrameData.audio ⟨[0, 0, 0, 0], 44100, 1, 2⟩, 0, Timebase.new 1 44100, 0⟩
      = ⟨FrameData.audio ⟨[0, 0, 0, 0], 44100, 1, 2⟩, 0, Timebase.new 1 44100, 0⟩ :=
  normalize_silent_unchanged (95 / 100)
    ⟨FrameData.audio ⟨[0, 0, 0, 0], 44100, 1, 2⟩, 0, Timebase.new 1 44100, 0⟩
    ⟨[0, 0, 0, 0], 44100, 1, 2⟩ rfl (by decide)

/-- C8: find_sync either returns None or an index at which
FrameHeader::parse succeeds. -/
theorem find_sync_parse_succeeds (data : List Nat) (i : Nat)
    (h : find_sync data = some i) :
    (FrameHeader.parse (data.drop i)).isSome = true := by
  unfold find_sync at h
  have hp := List.find?_some h
  simp only [Bool.and_eq_true, beq_iff_eq] at hp
  exact hp.2

/-- Witness for C8 at a concrete MPEG-1 Layer III header found at index
one. -/
theorem find_sync_parse_succeeds_witness :
    (FrameHeader.parse (List.drop 1 [0, 255, 251, 144, 0])).isSome = true :=
  find_sync_parse_succeeds [0, 255, 251, 144, 0] 1 (by decide)

/-- C2 counterexample: a PCM decoder/encoder pair where the encoder is
configured with a timebase different from the input packet's: the pts is
preserved but the output packet carries the encoder's timebase, not the
input packet's, refuting the unconditional timebase-equality claim. -/
theorem pcm_timebase_counterexample :
    (((PcmDecoder.decode ⟨1, 44100, 16⟩
        ((Packet.new [1, 0] 0 (Timebase.new 1 44100)).with_pts 7)).bind
      (PcmEncoder.encode (Timebase.new 1 48000))).map
        (fun q => (q.pts, q.timebase))) = some (7, Timebase.new 1 48000)
    ∧ Timebase.new 1 48000 ≠ Timebase.new 1 44100 := by
  constructor
  · rfl
  · decide

/-- C2 amended: the PCM decode/encode composition always returns a packet
with the original payload and pts, stamped with the encoder's configured
timebase; the timebase of the input packet is therefore preserved exactly
when the encoder is constructed with that same timebase, as the pipeline
does. -/
theorem pcm_roundtrip_pts_timebase (format : WavFormat) (enc_tb : Timebase) (p : Packet) :
    (PcmDecoder.decode format p).bind (PcmEncoder.encode enc_tb)
      = some ((Packet.new p.data p.stream_index enc_tb).with_pts p.pts) := by
  rfl

/-- Any list of length four is a four-element literal. -/
theorem list_length_four (l : List Nat) (h : l.length = 4) :
    ∃ a b c d, l = [a, b, c, d] := by
  match l, h with
  | [a, b, c, d], _ => exact ⟨a, b, c, d, rfl⟩

/-- Little-endian 32-bit encode/decode roundtrip. -/
theorem fromLe32_toLe32 (n : Nat) (h : n < 4294967296) :
    fromLe32 (n % 256) (n / 256 % 256) (n / 65536 % 256) (n / 16777216 % 256) = n := by
  unfold fromLe32
  omega

/-- Validating the RIFF/WAVE prefix hands the remaining stream to the
chunk walk. -/
theorem read_header_after_riff (s0 s1 s2 s3 : Nat) (tail : List Nat) :
    WavReader.read_header (riffWaveBytes s0 s1 s2 s3 ++ tail)
      = WavReader.read_header_loop tail := by
  unfold WavReader.read_header riffWaveBytes
  simp

/-- The chunk walk skips one non-fmt chunk whole. -/
theorem read_header_loop_skip (a b c d : Nat) (payload tail : List Nat)
    (hid : [a, b, c, d] ≠ fmtChunkId) (hlen : payload.length < 4294967296) :
    WavReader.read_header_loop (chunkBytes [a, b, c, d] payload ++ tail)
      = WavReader.read_header_loop tail := by
  rw [WavReader.read_header_loop]
  have hsz : fromLe32 (payload.length % 256) (payload.length / 256 % 256)
      (payload.length / 65536 % 256) (payload.length / 16777216 % 256) = payload.length :=
    fromLe32_toLe32 payload.length hlen
  simp only [chunkBytes, toLe32, List.cons_append, List.nil_append, List.append_assoc]
  simp only [List.length_cons, List.length_append]
  rw [dif_pos (by omega)]
  simp only [List.take_succ_cons, List.take_zero, List.drop_succ_cons, List.drop_zero,
    List.getD_cons_succ, List.getD_cons_zero, hsz]
  rw [if_neg hid, if_pos (by simp only [List.length_append]; omega), List.drop_left]

/-- The chunk walk at the fmt chunk: reject a non-16-bit depth, accept a
16-bit one with the parsed format. -/
theorem read_header_loop_fmt (payload tail : List Nat) (h16 : 16 ≤ payload.length)
    (hlen : payload.length < 4294967296) :
    WavReader.read_header_loop (chunkBytes fmtChunkId payload ++ tail)
      = if fromLe16 (payload.getD 14 0) (payload.getD 15 0) ≠ 16 then
          Except.error IoErrorKind.invalidData
        else Except.ok
          (⟨fromLe16 (payload.getD 2 0) (payload.getD 3 0) % 256,
            fromLe32 (payload.getD 4 0) (payload.getD 5 0) (payload.getD 6 0)
              (payload.getD 7 0),
            fromLe16 (payload.getD 14 0) (payload.getD 15 0)⟩, tail) := by
  rw [WavReader.read_header_loop]
  have hsz : fromLe32 (payload.length % 256) (payload.length / 256 % 256)
      (payload.length / 65536 % 256) (payload.length / 16777216 % 256) = payload.length :=
    fromLe32_toLe32 payload.length hlen
  simp only [chunkBytes, fmtChunkId, toLe32, List.cons_append, List.nil_append,
    List.append_assoc]
  simp only [List.length_cons, List.length_append]
  rw [dif_pos (by omega)]
  simp only [List.take_succ_cons, List.take_zero, List.drop_succ_cons, List.drop_zero,
    List.getD_cons_succ, List.getD_cons_zero, hsz, List.take_left, List.drop_left]
  rw [if_pos trivial, if_pos (by simp only [List.length_append]; omega), if_neg (by omega)]

/-- The chunk walk skips any sequence of well-formed non-fmt chunks. -/
theorem read_header_loop_skip_chain (pre : List (List Nat × List Nat))
    (hpre : ∀ c ∈ pre, c.1.length = 4 ∧ c.1 ≠ fmtChunkId ∧ c.2.length < 4294967296)
    (tail : List Nat) :
    WavReader.read_header_loop (pre.flatMap (fun c => chunkBytes c.1 c.2) ++ tail)
      = WavReader.read_header_loop tail := by
  induction pre with
  | nil => rw [List.flatMap_nil, List.nil_append]
  | cons c pre ih =>
    have hc := hpre c (List.mem_cons_self c pre)
    obtain ⟨a, b, c2, d, hid⟩ := list_length_four c.1 hc.1
    rw [List.flatMap_cons, List.append_assoc, hid,
      read_header_loop_skip a b c2 d c.2 _ (hid ▸ hc.2.1) hc.2.2]
    exact ih (fun x hx => hpre x (List.mem_cons_of_mem c hx))

/-- Locating the data chunk at the head of the remaining stream yields
its declared size and leaves the payload as the reader's stream. -/
theorem find_data_chunk_at_head (payload tail : List Nat)
    (hlen : payload.length < 4294967296) :
    WavReader.find_data_chunk (chunkBytes dataChunkId payload ++ tail)
      = Except.ok (payload.length, payload ++ tail) := by
  rw [WavReader.find_data_chunk]
  have hsz : fromLe32 (payload.length % 256) (payload.length / 256 % 256)
      (payload.length / 65536 % 256) (payload.length / 16777216 % 256) = payload.length :=
    fromLe32_toLe32 payload.length hlen
  simp only [chunkBytes, dataChunkId, toLe32, List.cons_append, List.nil_append,
    List.append_assoc]
  simp only [List.length_cons, List.length_append]
  rw [dif_pos (by omega)]
  simp only [List.take_succ_cons, List.take_zero, List.drop_succ_cons, List.drop_zero,
    List.getD_cons_succ, List.getD_cons_zero, hsz]
  rw [if_pos trivial]

/-- C6: opening a WAV stream whose fmt chunk declares a bit depth other
than sixteen fails the whole open with an InvalidData error, for any RIFF
size bytes, any preceding well-formed non-fmt chunks and any bytes after
the fmt chunk; since construction fails, no packet is ever produced from
such a stream. -/
theorem wav_open_rejects_non_16bit (s0 s1 s2 s3 : Nat) (pre : List (List Nat × List Nat))
    (hpre : ∀ c ∈ pre, c.1.length = 4 ∧ c.1 ≠ fmtChunkId ∧ c.2.length < 4294967296)
    (payload : List Nat) (h16 : 16 ≤ payload.length) (hlen : payload.length < 4294967296)
    (hdepth : fromLe16 (payload.getD 14 0) (payload.getD 15 0) ≠ 16) (tail : List Nat) :
    WavReader.new (riffWaveBytes s0 s1 s2 s3
        ++ (pre.flatMap (fun c => chunkBytes c.1 c.2)
          ++ (chunkBytes fmtChunkId payload ++ tail)))
      = Except.error IoErrorKind.invalidData := by
  unfold WavReader.new
  rw [read_header_after_riff, read_header_loop_skip_chain pre hpre,
    read_header_loop_fmt payload tail h16 hlen, if_pos hdepth]

/-- Witness for C6: a concrete stream declaring an 8-bit depth is
rejected as InvalidData. -/
theorem wav_open_rejects_non_16bit_witness :
    WavReader.new (riffWaveBytes 0 0 0 0
        ++ (([] : List (List Nat × List Nat)).flatMap (fun c => chunkBytes c.1 c.2)
          ++ (chunkBytes fmtChunkId fmtPayload8 ++ [])))
      = Except.error IoErrorKind.invalidData :=
  wav_open_rejects_non_16bit 0 0 0 0 [] (fun c hc => absurd hc (List.not_mem_nil c))
    fmtPayload8 (by decide) (by decide) (by decide) []

/-- C1: the WAV demuxer's pts at the failing input, a well-formed 16-bit
mono PCM WAV whose data chunk holds 4098 bytes (one full 4096-byte packet
and a short 2-byte final packet).  The code yields pts values 0 and 1
(packet_count * bytes_read_this_packet / bytes_per_frame), while the
specified formula, cumulative bytes read before the packet over
bytes_per_frame, yields 0 and 2048. -/
theorem read_packet_eq (r : WavReader) (h0 : r.data_remaining ≠ 0)
    (hlen : r.data_remaining ≤ r.reader.length) :
    r.read_packet = some
      ((Packet.new (r.reader.take (min 4096 r.data_remaining)) 0 r.timebase).with_pts
        ((r.packet_count * min 4096 r.data_remaining / r.format.bytes_per_frame : Nat) : Int),
      ⟨r.reader.drop (min 4096 r.data_remaining), r.format, r.timebase,
        r.data_remaining - min 4096 r.data_remaining, r.packet_count + 1⟩) := by
  have hread : min (min 4096 r.data_remaining) r.reader.length = min 4096 r.data_remaining :=
    min_eq_left (le_trans (min_le_right _ _) hlen)
  rw [WavReader.read_packet, if_neg h0]
  dsimp only
  rw [hread, if_neg (by omega)]

theorem read_pts_two (r r1 r2 : WavReader) (p1 p2 : Packet)
    (h1 : r.read_packet = some (p1, r1)) (h2 : r1.read_packet = some (p2, r2)) :
    r.read_pts 2 = [p1.pts, p2.pts] := by
  simp [WavReader.read_pts, h1, h2]

theorem wav_pts_short_tail_diverges :
    ((WavReader.new wavShortTailStream).toOption.map (fun r => r.read_pts 2)
        = some [0, 1])
    ∧ specWavPts 2 [4096, 2] = [0, 2048] := by
  refine ⟨?_, by rfl⟩
  have hfmt : (⟨fromLe16 (fmtPayload16.getD 2 0) (fmtPayload16.getD 3 0) % 256,
      fromLe32 (fmtPayload16.getD 4 0) (fmtPayload16.getD 5 0) (fmtPayload16.getD 6 0)
        (fmtPayload16.getD 7 0),
      fromLe16 (fmtPayload16.getD 14 0) (fmtPayload16.getD 15 0)⟩ : WavFormat)
      = ⟨1, 44100, 16⟩ := by decide
  have hopen : WavReader.new wavShortTailStream
      = Except.ok ⟨List.replicate 4098 0, ⟨1, 44100, 16⟩, Timebase.new 1 44100, 4098, 0⟩ := by
    unfold wavShortTailStream WavReader.new
    rw [show chunkBytes fmtChunkId fmtPayload16
          ++ chunkBytes dataChunkId (List.replicate 4098 0)
        = chunkBytes fmtChunkId fmtPayload16
          ++ (chunkBytes dataChunkId (List.replicate 4098 0) ++ []) from by
        rw [List.append_nil]]
    rw [read_header_after_riff,
      read_header_loop_fmt fmtPayload16 _ (by decide) (by decide), if_neg (by decide), hfmt]
    dsimp only
    rw [find_data_chunk_at_head _ _ (by rw [List.length_replicate]; norm_num)]
    dsimp only
    rw [List.append_nil, List.length_replicate]
  rw [hopen]
  have hstep1 : WavReader.read_packet
      ⟨List.replicate 4098 0, ⟨1, 44100, 16⟩, Timebase.new 1 44100, 4098, 0⟩
      = some ((Packet.new (List.replicate 4096 0) 0 (Timebase.new 1 44100)).with_pts 0,
        ⟨List.replicate 2 0, ⟨1, 44100, 16⟩, Timebase.new 1 44100, 2, 1⟩) := by
    rw [read_packet_eq _ (by norm_num) (by rw [List.length_replicate])]
    rw [show min 4096 (4098 : Nat) = 4096 from by norm_num]
    rw [List.take_replicate, List.drop_replicate]
    norm_num [WavFormat.bytes_per_frame, WavFormat.bytes_per_sample]
  have hstep2 : WavReader.read_packet
      ⟨List.replicate 2 0, ⟨1, 44100, 16⟩, Timebase.new 1 44100, 2, 1⟩
      = some ((Packet.new (List.replicate 2 0) 0 (Timebase.new 1 44100)).with_pts 1,
        ⟨List.replicate 0 0, ⟨1, 44100, 16⟩, Timebase.new 1 44100, 0, 2⟩) := by
    rw [read_packet_eq _ (by norm_num) (by rw [List.length_replicate])]
    rw [show min 4096 (2 : Nat) = 2 from by norm_num]
    rw [List.take_replicate, List.drop_replicate]
    norm_num [WavFormat.bytes_per_frame, WavFormat.bytes_per_sample]
  dsimp only [Except.toOption, Option.map]
  rw [read_pts_two _ _ _ _ _ hstep1 hstep2]
  rfl

/-- Truncation toward zero of an integer-valued rational is the
integer. -/
theorem ratTrunc_intCast (n : Int) : ratTrunc (n : ℚ) = n := by
  unfold ratTrunc
  rw [Rat.num_intCast, Rat.den_intCast]
  exact_mod_cast Int.tdiv_one n

/-- Gain amplification by the exactly representable factor 2.0 is the
clamped doubling. -/
theorem gain_amplify_two (s : Int) :
    Gain.amplify 2 s = max (-32768) (min 32767 (2 * s)) := by
  unfold Gain.amplify rustClamp
  have hq : (s : ℚ) * 2 = ((2 * s : Int) : ℚ) := by push_cast; ring
  rw [hq]
  split_ifs with h1 h2
  · rw [show ((-32768 : ℚ)) = ((-32768 : Int) : ℚ) from by norm_num, ratTrunc_intCast]
    have hlt : (2 * s : Int) < -32768 := by exact_mod_cast h1
    omega
  · rw [show ((32767 : ℚ)) = ((32767 : Int) : ℚ) from by norm_num, ratTrunc_intCast]
    have hlt : (32767 : Int) < 2 * s := by exact_mod_cast h2
    omega
  · rw [ratTrunc_intCast]
    have hge : ¬((2 * s : Int) < -32768) := fun hc => h1 (by exact_mod_cast hc)
    have hle : ¬((32767 : Int) < 2 * s) := fun hc => h2 (by exact_mod_cast hc)
    omega

/-- Unfolding equation of the gain rewriting loop on an aligned byte
pair. -/
theorem gain_rewrite_cons (factor : ℚ) (b0 b1 : Nat) (rest : List Nat) :
    Gain.rewrite factor (b0 :: b1 :: rest)
      = i16ToLe (Gain.amplify factor (i16FromLe b0 b1)) ++ Gain.rewrite factor rest := rfl

/-- The gain byte loop acts samplewise on an encoded in-range sample
list. -/
theorem gain_rewrite_encode (factor : ℚ) (samples : List Int)
    (h : ∀ s ∈ samples, -32768 ≤ s ∧ s ≤ 32767) :
    Gain.rewrite factor (encodeSamplesLe samples)
      = encodeSamplesLe (samples.map (Gain.amplify factor)) := by
  induction samples with
  | nil => rfl
  | cons s rest ih =>
    have hs := h s (List.mem_cons_self s rest)
    simp only [encodeSamplesLe, List.flatMap_cons, List.map_cons] at ih ⊢
    rw [show i16ToLe s = ((s % 65536).toNat % 256) :: [(s % 65536).toNat / 256] from rfl,
      List.cons_append, List.singleton_append, gain_rewrite_cons,
      i16FromLe_i16ToLe s hs.1 hs.2, ih (fun t ht => h t (List.mem_cons_of_mem s ht))]

/-- C3 counterexample: the sample -16384 has absolute doubled value
32768 > 32767, and Gain with factor 2.0 saturates it to -32768, not to
the claimed -32767. -/
theorem gain_neg_saturation_counterexample :
    decodeSamplesLe (frameAudioBytes (Gain.apply 2
        ⟨FrameData.audio ⟨encodeSamplesLe [-16384], 44100, 1, 1⟩, 0, Timebase.new 1 44100, 0⟩))
      = [-32768]
    ∧ ((-32768 : Int) ≠ -32767) := by
  constructor
  · have h1 : Gain.amplify 2 (-16384) = -32768 := by
      rw [gain_amplify_two]
      decide
    unfold Gain.apply frameAudioBytes
    dsimp only
    rw [gain_rewrite_encode 2 [-16384] (by decide), List.map_cons, List.map_nil, h1]
    decide
  · decide

/-- C3 amended: Gain with factor 2.0 rewrites every sample to the clamped
double; samples with absolute value below 16384 double exactly, and
samples whose doubled absolute value exceeds 32767 saturate to +32767
when positive and to -32768 (the clamp's lower bound) when negative. -/
theorem gain_two_doubles_and_saturates (samples : List Int)
    (h : ∀ s ∈ samples, -32768 ≤ s ∧ s ≤ 32767) (sr ch nb : Nat) (pts : Int)
    (tb : Timebase) (si : Nat) :
    Gain.apply 2 ⟨FrameData.audio ⟨encodeSamplesLe samples, sr, ch, nb⟩, pts, tb, si⟩
      = ⟨FrameData.audio ⟨encodeSamplesLe (samples.map (Gain.amplify 2)), sr, ch, nb⟩,
        pts, tb, si⟩
    ∧ ∀ s ∈ samples, (s.natAbs < 16384 → Gain.amplify 2 s = 2 * s)
      ∧ (32767 < 2 * s.natAbs → Gain.amplify 2 s = if 0 < s then 32767 else -32768) := by
  constructor
  · unfold Gain.apply
    dsimp only
    rw [gain_rewrite_encode 2 samples h]
  · intro s hs
    have hb := h s hs
    rw [gain_amplify_two s]
    constructor
    · intro hlt
      omega
    · intro hgt
      split_ifs with hpos <;> omega

/-- Witness for C3 amended at a concrete frame holding a small, a
negative saturating and a positive saturating sample. -/
theorem gain_two_doubles_and_saturates_witness :
    (Gain.apply 2 ⟨FrameData.audio
          ⟨encodeSamplesLe [100, -16384, 20000], 44100, 1, 3⟩, 0, Timebase.new 1 44100, 0⟩
        = ⟨FrameData.audio
          ⟨encodeSamplesLe ([100, -16384, 20000].map (Gain.amplify 2)), 44100, 1, 3⟩,
          0, Timebase.new 1 44100, 0⟩)
    ∧ ∀ s ∈ [(100 : Int), -16384, 20000],
        (s.natAbs < 16384 → Gain.amplify 2 s = 2 * s)
        ∧ (32767 < 2 * s.natAbs → Gain.amplify 2 s = if 0 < s then 32767 else -32768) :=
  gain_two_doubles_and_saturates [100, -16384, 20000] (by decide) 44100 1 3 0
    (Timebase.new 1 44100) 0

/-- Truncation toward zero agrees with the floor on nonnegative
rationals. -/
theorem ratTrunc_nonneg (q : ℚ) (h : 0 ≤ q) : ratTrunc q = ⌊q⌋ := by
  rw [Rat.floor_def]
  exact Int.tdiv_eq_ediv (Rat.num_nonneg.mpr h) (by positivity)

/-- Every sample of an interleaved stereo stream is a component of one of
its pairs. -/
theorem mem_interleaveLR (pairs : List (Int × Int)) (s : Int)
    (hs : s ∈ interleaveLR pairs) : ∃ p ∈ pairs, s = p.1 ∨ s = p.2 := by
  induction pairs with
  | nil => cases hs
  | cons p rest ih =>
    rw [show interleaveLR (p :: rest) = p.1 :: p.2 :: interleaveLR rest from rfl] at hs
    rcases hs with _ | ⟨_, hs2⟩
    · exact ⟨p, List.mem_cons_self p rest, Or.inl rfl⟩
    · rcases hs2 with _ | ⟨_, hs3⟩
      · exact ⟨p, List.mem_cons_self p rest, Or.inr rfl⟩
      · obtain ⟨q, hq, hor⟩ := ih hs3
        exact ⟨q, List.mem_cons_of_mem p hq, hor⟩

/-- The stereo-to-mono conversion maps each pair to its truncated
average. -/
theorem convert_stereo_to_mono_interleave (pairs : List (Int × Int)) :
    ChannelMixer.convert_stereo_to_mono (interleaveLR pairs)
      = pairs.map (fun p => Int.tdiv (p.1 + p.2) 2) := by
  induction pairs with
  | nil => rfl
  | cons p rest ih =>
    rw [show interleaveLR (p :: rest) = p.1 :: p.2 :: interleaveLR rest from rfl,
      show ChannelMixer.convert_stereo_to_mono (p.1 :: p.2 :: interleaveLR rest)
        = Int.tdiv (p.1 + p.2) 2 :: ChannelMixer.convert_stereo_to_mono (interleaveLR rest)
        from rfl, ih, List.map_cons]

/-- Characterisation of the mono remix of a stereo frame: one averaged
sample per pair, channel count one, nb_samples the pair count. -/
theorem mixer_apply_stereo_mono (pairs : List (Int × Int))
    (h : ∀ p ∈ pairs, (-32768 ≤ p.1 ∧ p.1 ≤ 32767) ∧ (-32768 ≤ p.2 ∧ p.2 ≤ 32767))
    (sr nb : Nat) (pts : Int) (tb : Timebase) (si : Nat) :
    ChannelMixer.apply ChannelLayout.mono
        ⟨FrameData.audio ⟨encodeSamplesLe (interleaveLR pairs), sr, 2, nb⟩, pts, tb, si⟩
      = ⟨FrameData.audio
          ⟨encodeSamplesLe (pairs.map (fun p => Int.tdiv (p.1 + p.2) 2)), sr, 1,
            pairs.length⟩, pts, tb, si⟩ := by
  have hrange : ∀ s ∈ interleaveLR pairs, -32768 ≤ s ∧ s ≤ 32767 := by
    intro s hs
    obtain ⟨p, hp, hor⟩ := mem_interleaveLR pairs s hs
    rcases hor with h1 | h2
    · exact h1 ▸ (h p hp).1
    · exact h2 ▸ (h p hp).2
  unfold ChannelMixer.apply
  dsimp only
  rw [if_neg (by decide), decodeSamplesLe_encodeSamplesLe _ hrange]
  rw [if_neg (by decide), if_pos (by decide), convert_stereo_to_mono_interleave]
  rw [List.length_map, Nat.div_one]

/-- C4 counterexample: mixing the stereo pair (1, 2) to mono yields the
truncated average 1, while round((1 + 2) / 2) = 2. -/
theorem mixer_round_counterexample :
    decodeSamplesLe (frameAudioBytes (ChannelMixer.apply ChannelLayout.mono
        ⟨FrameData.audio ⟨encodeSamplesLe (interleaveLR [(1, 2)]), 44100, 2, 1⟩, 0,
          Timebase.new 1 44100, 0⟩))
      = [1]
    ∧ round (((1 : ℚ) + 2) / 2) = 2 ∧ ((1 : Int) ≠ 2) := by
  refine ⟨?_, by norm_num [round_eq], by decide⟩
  rw [mixer_apply_stereo_mono [(1, 2)] (by decide) 44100 1 0 (Timebase.new 1 44100) 0]
  decide

/-- C4 amended: mixing a stereo frame of N sample pairs to mono yields a
frame with channels one and nb_samples N in which each output sample is
the truncated (toward zero) integer average (L + R) / 2 of the input
pair; this equals round((L + R) / 2) whenever L + R is even, but differs
on odd positive sums, which round upward. -/
theorem mixer_mono_truncated_average (pairs : List (Int × Int))
    (h : ∀ p ∈ pairs, (-32768 ≤ p.1 ∧ p.1 ≤ 32767) ∧ (-32768 ≤ p.2 ∧ p.2 ≤ 32767))
    (sr nb : Nat) (pts : Int) (tb : Timebase) (si : Nat) :
    ChannelMixer.apply ChannelLayout.mono
        ⟨FrameData.audio ⟨encodeSamplesLe (interleaveLR pairs), sr, 2, nb⟩, pts, tb, si⟩
      = ⟨FrameData.audio
          ⟨encodeSamplesLe (pairs.map (fun p => Int.tdiv (p.1 + p.2) 2)), sr, 1,
            pairs.length⟩, pts, tb, si⟩
    ∧ ∀ p ∈ pairs, 2 ∣ (p.1 + p.2) →
        Int.tdiv (p.1 + p.2) 2 = round (((p.1 : ℚ) + p.2) / 2) := by
  refine ⟨mixer_apply_stereo_mono pairs h sr nb pts tb si, ?_⟩
  intro p hp hdvd
  obtain ⟨k, hk⟩ := hdvd
  rw [hk, Int.mul_tdiv_cancel_left k (by norm_num)]
  have hq : ((p.1 : ℚ) + p.2) / 2 = (k : ℚ) := by
    have : ((p.1 : ℚ) + p.2) = ((p.1 + p.2 : Int) : ℚ) := by push_cast; ring
    rw [this, hk]
    push_cast
    ring
  rw [hq, round_intCast]

/-- Witness for C4 amended at the two-pair stereo frame ((1, 2),
(-5, -5)). -/
theorem mixer_mono_truncated_average_witness :
    (ChannelMixer.apply ChannelLayout.mono
        ⟨FrameData.audio
          ⟨encodeSamplesLe (interleaveLR [(1, 2), (-5, -5)]), 44100, 2, 2⟩, 0,
          Timebase.new 1 44100, 0⟩
      = ⟨FrameData.audio
          ⟨encodeSamplesLe ([((1 : Int), (2 : Int)), (-5, -5)].map
            (fun p => Int.tdiv (p.1 + p.2) 2)), 44100, 1, 2⟩, 0, Timebase.new 1 44100, 0⟩)
    ∧ ∀ p ∈ [((1 : Int), (2 : Int)), (-5, -5)], 2 ∣ (p.1 + p.2) →
        Int.tdiv (p.1 + p.2) 2 = round (((p.1 : ℚ) + p.2) / 2) :=
  mixer_mono_truncated_average [(1, 2), (-5, -5)] (by decide) 44100 2 0
    (Timebase.new 1 44100) 0

/-- Characterisation of Resample::apply on an audio frame whose rate
differs from the target: the new pts is the truncated scaled pts and the
new timebase is 1/target_rate. -/
theorem resample_apply_pts_timebase (target_rate : Nat) (fr : Frame) (a : FrameAudio)
    (hdata : fr.data = FrameData.audio a) (hrate : a.sample_rate ≠ target_rate) :
    (Resample.apply target_rate fr).pts = Resample.new_pts fr.pts target_rate a.sample_rate
    ∧ (Resample.apply target_rate fr).timebase = Timebase.new 1 target_rate := by
  obtain ⟨d, pts, tb, si⟩ := fr
  simp only at hdata
  subst hdata
  unfold Resample.apply
  dsimp only
  rw [if_neg hrate]
  exact ⟨rfl, rfl⟩

/-- The truncated scaled pts at the counterexample input: 6 ticks at
44100 Hz scale to 6.53 ticks at 48000 Hz, truncated to 6. -/
theorem resample_new_pts_six : Resample.new_pts 6 48000 44100 = 6 := by
  unfold Resample.new_pts
  rw [ratTrunc_nonneg _ (by positivity)]
  rw [show ((6 : Int) : ℚ) * ((48000 : Nat) : ℚ) / ((44100 : Nat) : ℚ) = 288000 / 44100 from by
    push_cast
    ring]
  norm_num [Int.floor_eq_iff]

/-- C5 counterexample: an audio frame with pts 6 at 44100 Hz resampled to
48000 Hz gets pts 6 (the f64 product truncated toward zero by the as i64
cast), while round(6 * 48000 / 44100) = 7. -/
theorem resample_round_counterexample :
    (Resample.apply 48000
        ⟨FrameData.audio ⟨[], 44100, 1, 0⟩, 6, Timebase.new 1 44100, 0⟩).pts = 6
    ∧ round ((6 * 48000 : ℚ) / 44100) = 7 ∧ ((6 : Int) ≠ 7) := by
  refine ⟨?_, by norm_num [round_eq], by decide⟩
  rw [(resample_apply_pts_timebase 48000 _ ⟨[], 44100, 1, 0⟩ rfl (by decide)).1]
  exact resample_new_pts_six

/-- C5 amended: for every audio frame whose rate differs from the target,
the resampler's output carries timebase 1/target_rate as claimed, and its
pts is old_pts * target_rate / source_rate truncated toward zero (the as
i64 cast of the f64 quotient), not rounded to nearest; the two agree only
when the scaled pts has fractional part below one half. -/
theorem resample_pts_truncated (target_rate : Nat) (fr : Frame) (a : FrameAudio)
    (hdata : fr.data = FrameData.audio a) (hrate : a.sample_rate ≠ target_rate) :
    (Resample.apply target_rate fr).pts = Resample.new_pts fr.pts target_rate a.sample_rate
    ∧ (Resample.apply target_rate fr).timebase = Timebase.new 1 target_rate :=
  resample_apply_pts_timebase target_rate fr a hdata hrate

/-- Witness for C5 amended at a concrete 44100 Hz frame resampled to
48000 Hz. -/
theorem resample_pts_truncated_witness :
    (Resample.apply 48000
        ⟨FrameData.audio ⟨[], 44100, 1, 0⟩, 6, Timebase.new 1 44100, 0⟩).pts
      = Resample.new_pts 6 48000 44100
    ∧ (Resample.apply 48000
        ⟨FrameData.audio ⟨[], 44100, 1, 0⟩, 6, Timebase.new 1 44100, 0⟩).timebase
      = Timebase.new 1 48000 :=
  resample_pts_truncated 48000
    ⟨FrameData.audio ⟨[], 44100, 1, 0⟩, 6, Timebase.new 1 44100, 0⟩
    ⟨[], 44100, 1, 0⟩ rfl (by decide)

/-- Row recovery from a row-major index with in-row column. -/
theorem rowcol_div (y x w : Nat) (hx : x < w) : (y * w + x) / w = y := by
  rw [Nat.mul_comm, Nat.mul_add_div (by omega), Nat.div_eq_of_lt hx]
  omega

/-- Column recovery from a row-major index. -/
theorem rowcol_mod (y x w : Nat) (hx : x < w) : (y * w + x) % w = x := by
  rw [Nat.mul_comm, Nat.mul_add_mod, Nat.mod_eq_of_lt hx]

/-- A row-major index of an in-bounds pixel is inside the plane. -/
theorem grid_index_lt (y x w h : Nat) (hy : y < h) (hx : x < w) : y * w + x < w * h :=
  calc y * w + x < y * w + w := by omega
  _ = (y + 1) * w := by ring
  _ ≤ h * w := Nat.mul_le_mul_right w hy
  _ = w * h := Nat.mul_comm h w

/-- Membership in the row-major grid enumeration. -/
theorem planeGrid_mem (w h : Nat) (p : Nat × Nat) :
    p ∈ planeGrid w h ↔ p.1 < h ∧ p.2 < w := by
  unfold planeGrid
  rcases p with ⟨y, x⟩
  simp only [List.mem_flatMap, List.mem_map, List.mem_range, Prod.mk.injEq]
  constructor
  · rintro ⟨y2, hy2, x2, hx2, rfl, rfl⟩
    exact ⟨hy2, hx2⟩
  · rintro ⟨hy, hx⟩
    exact ⟨y, hy, x, hx, rfl, rfl⟩

/-- The grid enumeration has no duplicates. -/
theorem planeGrid_nodup (w h : Nat) : (planeGrid w h).Nodup := by
  unfold planeGrid
  rw [List.nodup_flatMap]
  constructor
  · intro y _
    exact (List.nodup_range w).map_on
      (fun x1 _ x2 _ he => by
        simpa using congrArg Prod.snd he)
  · exact (List.nodup_range h).imp
      (fun hne a ha1 ha2 => by
        obtain ⟨x1, _, hx1⟩ := List.mem_map.mp ha1
        obtain ⟨x2, _, hx2⟩ := List.mem_map.mp ha2
        exact hne ((congrArg Prod.fst hx1).trans (congrArg Prod.fst hx2).symm))

/-- The horizontal destination index written for pixel (y, x). -/
theorem dst_index_horizontal (w h : Nat) (p : Nat × Nat) :
    Flip.dst_index FlipDirection.horizontal w h p = p.1 * w + (w - 1 - p.2) := rfl

/-- On the grid, the horizontal destination index determines the
pixel. -/
theorem dst_index_horizontal_inj (w h : Nat) :
    ∀ p1 ∈ planeGrid w h, ∀ p2 ∈ planeGrid w h,
      Flip.dst_index FlipDirection.horizontal w h p1
        = Flip.dst_index FlipDirection.horizontal w h p2 → p1 = p2 := by
  intro p1 hp1 p2 hp2 he
  obtain ⟨hy1, hx1⟩ := (planeGrid_mem w h p1).mp hp1
  obtain ⟨hy2, hx2⟩ := (planeGrid_mem w h p2).mp hp2
  rw [dst_index_horizontal, dst_index_horizontal] at he
  have hr1 : w - 1 - p1.2 < w := by omega
  have hr2 : w - 1 - p2.2 < w := by omega
  have hy : p1.1 = p2.1 := by
    have h3 := congrArg (fun t => t / w) he
    simpa only [rowcol_div _ _ _ hr1, rowcol_div _ _ _ hr2] using h3
  have hx : p1.2 = p2.2 := by
    rw [hy] at he
    omega
  exact Prod.ext hy hx

/-- The horizontal destination indices over the grid are pairwise
distinct. -/
theorem planeGrid_map_dst_nodup (w h : Nat) :
    ((planeGrid w h).map (Flip.dst_index FlipDirection.horizontal w h)).Nodup :=
  (planeGrid_nodup w h).map_on (dst_index_horizontal_inj w h)

/-- One loop step never changes the destination length. -/
theorem plane_step_length (dir : FlipDirection) (src : List Nat) (w h : Nat)
    (d : List Nat) (p : Nat × Nat) :
    (Flip.plane_step dir src w h d p).length = d.length := by
  unfold Flip.plane_step
  dsimp only
  split_ifs
  · exact List.length_set d _ _
  · rfl

/-- The folded loop never changes the destination length. -/
theorem plane_fold_length (dir : FlipDirection) (src : List Nat) (w h : Nat)
    (l : List (Nat × Nat)) (d : List Nat) :
    (l.foldl (Flip.plane_step dir src w h) d).length = d.length := by
  induction l generalizing d with
  | nil => rfl
  | cons p t ih => rw [List.foldl_cons, ih, plane_step_length]

/-- A destination index not written by any processed pixel keeps its
previous value. -/
theorem plane_fold_get_ne (dir : FlipDirection) (src : List Nat) (w h : Nat)
    (l : List (Nat × Nat)) (d : List Nat) (j : Nat)
    (hne : ∀ p ∈ l, Flip.dst_index dir w h p ≠ j) :
    (l.foldl (Flip.plane_step dir src w h) d)[j]? = d[j]? := by
  induction l generalizing d with
  | nil => rfl
  | cons p t ih =>
    rw [List.foldl_cons, ih _ (fun q hq => hne q (List.mem_cons_of_mem p hq))]
    unfold Flip.plane_step
    dsimp only
    split_ifs
    · exact List.getElem?_set_ne (hne p (List.mem_cons_self p t))
    · rfl

/-- A destination index written by exactly one in-bounds pixel of the
processed list ends up holding that pixel's source byte. -/
theorem plane_fold_get_hit (dir : FlipDirection) (src : List Nat) (w h : Nat)
    (l : List (Nat × Nat)) (d : List Nat) (j : Nat) (p0 : Nat × Nat)
    (hnodup : (l.map (Flip.dst_index dir w h)).Nodup)
    (hmem : p0 ∈ l) (hdst : Flip.dst_index dir w h p0 = j)
    (hsrc : p0.1 * w + p0.2 < src.length) (hjd : j < d.length) :
    (l.foldl (Flip.plane_step dir src w h) d)[j]? = some (src.getD (p0.1 * w + p0.2) 0) := by
  induction l generalizing d with
  | nil => cases hmem
  | cons q t ih =>
    rw [List.map_cons, List.nodup_cons] at hnodup
    rw [List.foldl_cons]
    rcases List.mem_cons.mp hmem with rfl | hmem2
    · have htail : ∀ r ∈ t, Flip.dst_index dir w h r ≠ j := by
        intro r hr hcontra
        exact hnodup.1 (hdst ▸ hcontra ▸ List.mem_map_of_mem _ hr)
      rw [plane_fold_get_ne dir src w h t _ j htail]
      unfold Flip.plane_step
      dsimp only
      rw [hdst, if_pos ⟨hsrc, hjd⟩]
      exact List.getElem?_set_eq_of_lt _ hjd
    · exact ih (Flip.plane_step dir src w h d q) hnodup.2 hmem2
        (by rw [plane_step_length]; exact hjd)

/-- The mirror index stays inside the plane. -/
theorem hMirrorIdx_lt (w h j : Nat) (hj : j < w * h) : hMirrorIdx w j < w * h := by
  have hw : 0 < w := by
    rcases Nat.eq_zero_or_pos w with h0 | h0
    · rw [h0] at hj
      omega
    · exact h0
  exact grid_index_lt (j / w) (w - 1 - j % w) w h
    (Nat.div_lt_iff_lt_mul hw |>.mpr (by rw [Nat.mul_comm]; exact hj))
    (by have := Nat.mod_lt j hw; omega)

/-- The pixel (j / w, w - 1 - j % w) writes destination j under the
horizontal flip. -/
theorem dst_index_horizontal_mirror (w h j : Nat) (hj : j < w * h) :
    Flip.dst_index FlipDirection.horizontal w h (j / w, w - 1 - j % w) = j := by
  have hw : 0 < w := by
    rcases Nat.eq_zero_or_pos w with h0 | h0
    · rw [h0] at hj
      omega
    · exact h0
  have hb : j % w < w := Nat.mod_lt j hw
  have hdm := Nat.div_add_mod j w
  rw [dst_index_horizontal]
  dsimp only
  have hinner : w - 1 - (w - 1 - j % w) = j % w := by omega
  rw [hinner]
  calc (j / w) * w + j % w = w * (j / w) + j % w := by ring
  _ = j := hdm

/-- The mirror index map is an involution on the plane. -/
theorem hMirrorIdx_involutive (w h j : Nat) (hj : j < w * h) :
    hMirrorIdx w (hMirrorIdx w j) = j := by
  have hw : 0 < w := by
    rcases Nat.eq_zero_or_pos w with h0 | h0
    · rw [h0] at hj
      omega
    · exact h0
  have hb : j % w < w := Nat.mod_lt j hw
  have hr : w - 1 - j % w < w := by omega
  have hdm := Nat.div_add_mod j w
  unfold hMirrorIdx
  rw [rowcol_div (j / w) (w - 1 - j % w) w hr, rowcol_mod (j / w) (w - 1 - j % w) w hr]
  have hinner : w - 1 - (w - 1 - j % w) = j % w := by omega
  rw [hinner]
  calc (j / w) * w + j % w = w * (j / w) + j % w := by ring
  _ = j := hdm

/-- Pointwise characterisation of the horizontal plane flip on exactly
sized planes: position j of the destination holds the source byte at the
mirror index. -/
theorem flip_plane_horizontal_get (w h : Nat) (src dst : List Nat)
    (hsrc : src.length = w * h) (hdst : dst.length = w * h) (j : Nat) (hj : j < w * h) :
    (Flip.flip_plane FlipDirection.horizontal src dst w h)[j]?
      = some (src.getD (hMirrorIdx w j) 0) := by
  have hw : 0 < w := by
    rcases Nat.eq_zero_or_pos w with h0 | h0
    · rw [h0] at hj
      omega
    · exact h0
  have hb : j % w < w := Nat.mod_lt j hw
  have hdiv : j / w < h := by
    rw [Nat.div_lt_iff_lt_mul hw, Nat.mul_comm]
    exact hj
  unfold Flip.flip_plane
  have hp0 : ((j / w, w - 1 - j % w) : Nat × Nat) ∈ planeGrid w h :=
    (planeGrid_mem w h _).mpr ⟨hdiv, by omega⟩
  have hres := plane_fold_get_hit FlipDirection.horizontal src w h (planeGrid w h) dst j
    (j / w, w - 1 - j % w) (planeGrid_map_dst_nodup w h) hp0
    (dst_index_horizontal_mirror w h j hj)
    (by rw [hsrc]; exact grid_index_lt (j / w) (w - 1 - j % w) w h hdiv (by omega))
    (by rw [hdst]; exact hj)
  rw [hres]
  rfl

/-- Applying the horizontal plane flip twice to an exactly sized plane
restores it. -/
theorem flip_plane_horizontal_involutive (w h : Nat) (src : List Nat)
    (hsrc : src.length = w * h) :
    Flip.flip_plane FlipDirection.horizontal
        (Flip.flip_plane FlipDirection.horizontal src (List.replicate (w * h) 0) w h)
        (List.replicate (w * h) 0) w h
      = src := by
  have hlen1 : (Flip.flip_plane FlipDirection.horizontal src
      (List.replicate (w * h) 0) w h).length = w * h := by
    unfold Flip.flip_plane
    rw [plane_fold_length, List.length_replicate]
  have hlen2 : (Flip.flip_plane FlipDirection.horizontal
      (Flip.flip_plane FlipDirection.horizontal src (List.replicate (w * h) 0) w h)
      (List.replicate (w * h) 0) w h).length = w * h := by
    unfold Flip.flip_plane
    rw [plane_fold_length, List.length_replicate]
  apply List.ext_getElem?
  intro j
  rcases Nat.lt_or_ge j (w * h) with hj | hj
  · rw [flip_plane_horizontal_get w h _ _ hlen1 (List.length_replicate ..) j hj]
    have hmlt := hMirrorIdx_lt w h j hj
    have hinner := flip_plane_horizontal_get w h src (List.replicate (w * h) 0) hsrc
      (List.length_replicate ..) (hMirrorIdx w j) hmlt
    rw [List.getD_eq_getElem?_getD, hinner]
    rw [Option.getD_some, hMirrorIdx_involutive w h j hj]
    have hjlt : j < src.length := by rw [hsrc]; exact hj
    rw [List.getD_eq_getElem?_getD, List.getElem?_eq_getElem hjlt, Option.getD_some]
  · rw [List.getElem?_eq_none (by rw [hlen2]; exact hj),
      List.getElem?_eq_none (by rw [hsrc]; exact hj)]

/-- Unfolding equation of Flip::apply_yuv420 on a video frame. -/
theorem apply_yuv420_eq (dir : FlipDirection) (w h : Nat) (v : FrameVideo) (pts : Int)
    (tb : Timebase) (si : Nat) :
    Flip.apply_yuv420 dir w h ⟨FrameData.video v, pts, tb, si⟩
      = ⟨FrameData.video
          ⟨Flip.flip_plane dir (v.data.take (w * h)) (List.replicate (w * h) 0) w h
            ++ Flip.flip_plane dir ((v.data.drop (w * h)).take (w * h / 4))
              (List.replicate (w * h / 4) 0) (w / 2) (h / 2)
            ++ Flip.flip_plane dir ((v.data.drop (w * h + w * h / 4)).take (w * h / 4))
              (List.replicate (w * h / 4) 0) (w / 2) (h / 2),
          v.width, v.height⟩, pts, tb, si⟩ := rfl

/-- C7: on a YUV420 frame of even dimensions with exactly sized plane
data, applying the horizontal flip twice restores the frame, plane bytes
and metadata alike. -/
theorem flip_horizontal_involution (w h : Nat) (hw : w % 2 = 0) (hh : h % 2 = 0)
    (v : FrameVideo) (pts : Int) (tb : Timebase) (si : Nat)
    (hlen : v.data.length = w * h * 3 / 2) :
    Flip.apply_yuv420 FlipDirection.horizontal w h
        (Flip.apply_yuv420 FlipDirection.horizontal w h ⟨FrameData.video v, pts, tb, si⟩)
      = ⟨FrameData.video v, pts, tb, si⟩ := by
  obtain ⟨a, ha⟩ : ∃ a, w = 2 * a := ⟨w / 2, by omega⟩
  obtain ⟨b, hb⟩ : ∃ b, h = 2 * b := ⟨h / 2, by omega⟩
  obtain ⟨m, hm⟩ : ∃ m, m = a * b := ⟨a * b, rfl⟩
  have hwh : w * h = 4 * m := by rw [ha, hb, hm]; ring
  have hq : w * h / 4 = m := by rw [hwh]; omega
  have huv : w / 2 * (h / 2) = m := by
    rw [ha, hb, Nat.mul_div_cancel_left a (by norm_num),
      Nat.mul_div_cancel_left b (by norm_num), hm]
  have hlen6 : v.data.length = 6 * m := by
    rw [hlen, hwh]
    omega
  have hY : (v.data.take (w * h)).length = w * h := by
    rw [List.length_take, hlen6, hwh]
    omega
  have hU : ((v.data.drop (w * h)).take (w * h / 4)).length = m := by
    rw [List.length_take, List.length_drop, hlen6, hwh]
    omega
  have hV : ((v.data.drop (w * h + w * h / 4)).take (w * h / 4)).length = m := by
    rw [List.length_take, List.length_drop, hlen6, hwh]
    omega
  rw [apply_yuv420_eq, apply_yuv420_eq]
  dsimp only
  have hFY : (Flip.flip_plane FlipDirection.horizontal (v.data.take (w * h))
      (List.replicate (w * h) 0) w h).length = w * h := by
    unfold Flip.flip_plane
    rw [plane_fold_length, List.length_replicate]
  have hFU : (Flip.flip_plane FlipDirection.horizontal
      ((v.data.drop (w * h)).take (w * h / 4)) (List.replicate (w * h / 4) 0)
      (w / 2) (h / 2)).length = w * h / 4 := by
    unfold Flip.flip_plane
    rw [plane_fold_length, List.length_replicate]
  have hFV : (Flip.flip_plane FlipDirection.horizontal
      ((v.data.drop (w * h + w * h / 4)).take (w * h / 4)) (List.replicate (w * h / 4) 0)
      (w / 2) (h / 2)).length = w * h / 4 := by
    unfold Flip.flip_plane
    rw [plane_fold_length, List.length_replicate]
  have hsliceY : ((Flip.flip_plane FlipDirection.horizontal (v.data.take (w * h))
        (List.replicate (w * h) 0) w h
      ++ Flip.flip_plane FlipDirection.horizontal ((v.data.drop (w * h)).take (w * h / 4))
        (List.replicate (w * h / 4) 0) (w / 2) (h / 2)
      ++ Flip.flip_plane FlipDirection.horizontal
        ((v.data.drop (w * h + w * h / 4)).take (w * h / 4))
        (List.replicate (w * h / 4) 0) (w / 2) (h / 2)).take (w * h))
      = Flip.flip_plane FlipDirection.horizontal (v.data.take (w * h))
        (List.replicate (w * h) 0) w h := by
    rw [List.append_assoc, List.take_left' hFY]
  have hsliceU : (((Flip.flip_plane FlipDirection.horizontal (v.data.take (w * h))
        (List.replicate (w * h) 0) w h
      ++ Flip.flip_plane FlipDirection.horizontal ((v.data.drop (w * h)).take (w * h / 4))
        (List.replicate (w * h / 4) 0) (w / 2) (h / 2)
      ++ Flip.flip_plane FlipDirection.horizontal
        ((v.data.drop (w * h + w * h / 4)).take (w * h / 4))
        (List.replicate (w * h / 4) 0) (w / 2) (h / 2)).drop (w * h)).take (w * h / 4))
      = Flip.flip_plane FlipDirection.horizontal ((v.data.drop (w * h)).take (w * h / 4))
        (List.replicate (w * h / 4) 0) (w / 2) (h / 2) := by
    rw [List.append_assoc, List.drop_left' hFY, List.take_left' hFU]
  have hsliceV : (((Flip.flip_plane FlipDirection.horizontal (v.data.take (w * h))
        (List.replicate (w * h) 0) w h
      ++ Flip.flip_plane FlipDirection.horizontal ((v.data.drop (w * h)).take (w * h / 4))
        (List.replicate (w * h / 4) 0) (w / 2) (h / 2)
      ++ Flip.flip_plane FlipDirection.horizontal
        ((v.data.drop (w * h + w * h / 4)).take (w * h / 4))
        (List.replicate (w * h / 4) 0) (w / 2) (h / 2)).drop
          (w * h + w * h / 4)).take (w * h / 4))
      = Flip.flip_plane FlipDirection.horizontal
        ((v.data.drop (w * h + w * h / 4)).take (w * h / 4))
        (List.replicate (w * h / 4) 0) (w / 2) (h / 2) := by
    rw [List.drop_left' (by rw [List.length_append, hFY, hFU]),
      List.take_of_length_le (le_of_eq hFV)]
  rw [hsliceY, hsliceU, hsliceV]
  have hinvY : Flip.flip_plane FlipDirection.horizontal
      (Flip.flip_plane FlipDirection.horizontal (v.data.take (w * h))
        (List.replicate (w * h) 0) w h)
      (List.replicate (w * h) 0) w h = v.data.take (w * h) :=
    flip_plane_horizontal_involutive w h _ hY
  have hinvU : Flip.flip_plane FlipDirection.horizontal
      (Flip.flip_plane FlipDirection.horizontal ((v.data.drop (w * h)).take (w * h / 4))
        (List.replicate (w * h / 4) 0) (w / 2) (h / 2))
      (List.replicate (w * h / 4) 0) (w / 2) (h / 2)
      = (v.data.drop (w * h)).take (w * h / 4) := by
    have := flip_plane_horizontal_involutive (w / 2) (h / 2)
      ((v.data.drop (w * h)).take (w * h / 4)) (by rw [hU, huv])
    rw [show List.replicate (w / 2 * (h / 2)) 0 = List.replicate (w * h / 4) 0 from by
      rw [huv, hq]] at this
    exact this
  have hinvV : Flip.flip_plane FlipDirection.horizontal
      (Flip.flip_plane FlipDirection.horizontal
        ((v.data.drop (w * h + w * h / 4)).take (w * h / 4))
        (List.replicate (w * h / 4) 0) (w / 2) (h / 2))
      (List.replicate (w * h / 4) 0) (w / 2) (h / 2)
      = (v.data.drop (w * h + w * h / 4)).take (w * h / 4) := by
    have := flip_plane_horizontal_involutive (w / 2) (h / 2)
      ((v.data.drop (w * h + w * h / 4)).take (w * h / 4)) (by rw [hV, huv])
    rw [show List.replicate (w / 2 * (h / 2)) 0 = List.replicate (w * h / 4) 0 from by
      rw [huv, hq]] at this
    exact this
  rw [hinvY, hinvU, hinvV]
  have hVfull : (v.data.drop (w * h + w * h / 4)).take (w * h / 4)
      = v.data.drop (w * h + w * h / 4) :=
    List.take_of_length_le (by clear hm; rw [List.length_drop, hq, hlen6, hwh]; omega)
  have hUV : (v.data.drop (w * h)).take (w * h / 4)
      ++ (v.data.drop (w * h + w * h / 4)).take (w * h / 4) = v.data.drop (w * h) := by
    rw [hVfull, ← List.drop_drop, List.take_append_drop]
  rw [List.append_assoc, hUV, List.take_append_drop]

/-- Witness for C7 at a concrete 2x2 frame with six plane bytes. -/
theorem flip_horizontal_involution_witness :
    Flip.apply_yuv420 FlipDirection.horizontal 2 2
        (Flip.apply_yuv420 FlipDirection.horizontal 2 2
          ⟨FrameData.video ⟨[1, 2, 3, 4, 5, 6], 2, 2⟩, 0, Timebase.new 1 30, 0⟩)
      = ⟨FrameData.video ⟨[1, 2, 3, 4, 5, 6], 2, 2⟩, 0, Timebase.new 1 30, 0⟩ :=
  flip_horizontal_involution 2 2 (by decide) (by decide) ⟨[1, 2, 3, 4, 5, 6], 2, 2⟩ 0
    (Timebase.new 1 30) 0 (by decide)
